import Mathlib

/-!
Shallow embedding of `src/concore.py`: the synchronized data-exchange
protocol (read/write over file and socket ports), the parameter grammar
(`parse_params`), simulation-time bookkeeping (`simtime`, `initval`),
and the change-detection fingerprint (`unchanged`).

Python values that can travel through the protocol are modelled by `Val`
(arbitrary-precision ints, bools, None, strings, lists, tuples, dicts, and
boxed numpy integer scalars).  Python floats are not modelled; numeric
scalars are modelled as exact integers.  `ast.literal_eval` is modelled by
an executable recursive-descent parser `parseVal` over the literal grammar
(ints, strings, lists, dicts, True/False/None), and Python `str()` on such
values by the printer `prL` / `pyStrL`.
-/

set_option maxHeartbeats 1000000

namespace Concore

/-! ### Characters used by the literal grammar -/

def squote : Char := Char.ofNat 39
def dquote : Char := Char.ofNat 34
def lbrace : Char := Char.ofNat 123
def rbrace : Char := Char.ofNat 125
def bslash : Char := Char.ofNat 92

/-! ### Python values -/

/-- Model of the Python values handled by concore: ints, bools, `None`,
strings, lists, tuples, dicts and boxed numpy integer scalars.  (Floats are
not modelled; numeric scalars are exact integers.) -/
inductive Val where
  | vint  : Int → Val
  | vbool : Bool → Val
  | vnone : Val
  | vstr  : String → Val
  | vlist : List Val → Val
  | vtuple : List Val → Val
  | vdict : List (Val × Val) → Val
  | vnp   : Int → Val

/-! ### Decimal digits -/

def digitChar (n : Nat) : Char := Char.ofNat (48 + n)

def digitVal (c : Char) : Nat := c.toNat - 48

/-- Fueled helper for `natDigits` (structural recursion so that concrete
values reduce definitionally). -/
def natDigitsAux : Nat → Nat → List Char
  | 0, _ => []
  | fuel + 1, n =>
      if n < 10 then [digitChar n]
      else natDigitsAux fuel (n / 10) ++ [digitChar (n % 10)]

/-- The base-10 digits of `n`, most significant first (as Python `str` prints
a non-negative integer). -/
def natDigits (n : Nat) : List Char := natDigitsAux (n + 1) n

/-- Python `str` of an arbitrary-precision integer, as a character list. -/
def intPr (k : Int) : List Char :=
  if k < 0 then '-' :: natDigits k.natAbs else natDigits k.natAbs

/-! ### The printer: Python `str()` on lists/dicts (i.e. `repr` of elements) -/

mutual

/-- Model of Python `repr` on a `Val` (which is what `str` applies to the
elements of a list).  Strings are printed between single quotes with no
escaping, which matches Python exactly when the string contains neither a
single quote nor a backslash. -/
def prL : Val → List Char
  | .vint k => intPr k
  | .vbool b => if b then "True".data else "False".data
  | .vnone => "None".data
  | .vstr s => squote :: s.data ++ [squote]
  | .vlist xs => '[' :: prInner xs ++ [']']
  | .vtuple xs =>
      match xs with
      | [] => '(' :: [')']
      | [x] => '(' :: prL x ++ [','] ++ [')']
      | xs => '(' :: prInner xs ++ [')']
  | .vdict ps => lbrace :: prPairs ps ++ [rbrace]
  | .vnp k => intPr k

/-- Elements of a list/tuple, separated by `", "`. -/
def prInner : List Val → List Char
  | [] => []
  | [x] => prL x
  | x :: xs => prL x ++ ',' :: ' ' :: prInner xs

/-- Entries of a dict, `key: value` separated by `", "`. -/
def prPairs : List (Val × Val) → List Char
  | [] => []
  | [(k, v)] => prL k ++ ':' :: ' ' :: prL v
  | (k, v) :: ps => prL k ++ ':' :: ' ' :: prL v ++ ',' :: ' ' :: prPairs ps

end

/-- Python `str()` as a character list: a plain string prints as itself,
anything else as its `repr`. -/
def pyStrL : Val → List Char
  | .vstr s => s.data
  | v => prL v

/-- Python `str()`. -/
def pyStr (v : Val) : String := String.mk (pyStrL v)

/-! ### The parser: model of `ast.literal_eval` -/

def wsChar (c : Char) : Bool :=
  c = ' ' || c = Char.ofNat 9 || c = Char.ofNat 10 || c = Char.ofNat 13

def skipWs : List Char → List Char
  | [] => []
  | c :: r => if wsChar c then skipWs r else c :: r

/-- Accumulate decimal digits (the input is known to start with a digit). -/
def parseDigitsAux : List Char → Nat → Nat × List Char
  | [], acc => (acc, [])
  | c :: r, acc =>
      if c.isDigit then parseDigitsAux r (acc * 10 + digitVal c) else (acc, c :: r)

/-- Parse a non-empty run of decimal digits. -/
def parseNat : List Char → Option (Nat × List Char)
  | [] => none
  | c :: r => if c.isDigit then some (parseDigitsAux r (digitVal c)) else none

/-- Parse an optionally-negated integer literal. -/
def parseNumber (cs : List Char) : Option (Val × List Char) :=
  match cs with
  | [] => none
  | c :: r =>
      if c = '-' then (parseNat r).map (fun p => (Val.vint (-(p.1 : Int)), p.2))
      else (parseNat cs).map (fun p => (Val.vint (p.1 : Int), p.2))

/-- Consume characters of a quoted string until the closing quote `q`. -/
def takeStringChars (q : Char) : List Char → Option (List Char × List Char)
  | [] => none
  | c :: r =>
      if c = q then some ([], r)
      else (takeStringChars q r).map (fun p => (c :: p.1, p.2))

/-- A maximal run of ASCII letters. -/
def takeAlpha : List Char → List Char × List Char
  | [] => ([], [])
  | c :: r =>
      if c.isAlpha then
        let p := takeAlpha r
        (c :: p.1, p.2)
      else ([], c :: r)

/-- Parse the keyword literals `True` / `False` / `None`. -/
def parseKeyword (cs : List Char) : Option (Val × List Char) :=
  let p := takeAlpha cs
  if p.1 = "True".data then some (.vbool true, p.2)
  else if p.1 = "False".data then some (.vbool false, p.2)
  else if p.1 = "None".data then some (.vnone, p.2)
  else none

mutual

/-- Fueled recursive-descent parser for the restricted Python literal
grammar accepted by `ast.literal_eval` in this program: integers, quoted
strings, lists, dicts, and `True`/`False`/`None`. -/
def parseVal : Nat → List Char → Option (Val × List Char)
  | 0, _ => none
  | n + 1, cs =>
      match skipWs cs with
      | [] => none
      | c :: r =>
          if c = '[' then (parseElems n r).map (fun p => (Val.vlist p.1, p.2))
          else if c = lbrace then (parsePairs n r).map (fun p => (Val.vdict p.1, p.2))
          else if c = squote || c = dquote then
            (takeStringChars c r).map (fun p => (Val.vstr (String.mk p.1), p.2))
          else if c = '-' || c.isDigit then parseNumber (c :: r)
          else if c.isAlpha then parseKeyword (c :: r)
          else none

/-- Elements of a list literal, up to and including the closing `]`
(which is consumed); allows a trailing comma like Python. -/
def parseElems : Nat → List Char → Option (List Val × List Char)
  | 0, _ => none
  | n + 1, cs =>
      match skipWs cs with
      | [] => none
      | c :: r =>
          if c = ']' then some ([], r)
          else
            match parseVal n (c :: r) with
            | none => none
            | some (v, r1) =>
                match skipWs r1 with
                | [] => none
                | c2 :: r2 =>
                    if c2 = ',' then (parseElems n r2).map (fun p => (v :: p.1, p.2))
                    else if c2 = ']' then some ([v], r2)
                    else none

/-- Entries of a dict literal, up to and including the closing `}`. -/
def parsePairs : Nat → List Char → Option (List (Val × Val) × List Char)
  | 0, _ => none
  | n + 1, cs =>
      match skipWs cs with
      | [] => none
      | c :: r =>
          if c = rbrace then some ([], r)
          else
            match parseVal n (c :: r) with
            | none => none
            | some (k, r1) =>
                match skipWs r1 with
                | ':' :: r2 =>
                    match parseVal n r2 with
                    | none => none
                    | some (v, r3) =>
                        match skipWs r3 with
                        | [] => none
                        | c4 :: r4 =>
                            if c4 = ',' then
                              (parsePairs n r4).map (fun p => ((k, v) :: p.1, p.2))
                            else if c4 = rbrace then some ([(k, v)], r4)
                            else none
                | _ => none

end

/-- Model of `ast.literal_eval` on a character list: parse one literal and
require only trailing whitespace.  `none` models the `ValueError` /
`SyntaxError` that `literal_eval` raises on malformed input. -/
def literalEvalL (cs : List Char) : Option Val :=
  match parseVal (2 * cs.length + 2) cs with
  | some (v, rest) => if skipWs rest = [] then some v else none
  | none => none

/-- Model of `ast.literal_eval` on a string. -/
def literalEval (s : String) : Option Val := literalEvalL s.data

/-! ### Python string helpers (`strip`, `split`, `split(sep, 1)`) -/

/-- Python `str.strip()`: drop whitespace from both ends. -/
def pyStrip (cs : List Char) : List Char :=
  ((skipWs ((skipWs cs).reverse)).reverse)

/-- Python `str.split(sep)` for a one-character separator: split on every
occurrence, keeping empty segments (`"".split(sep) == [""]`). -/
def pySplitChar (sep : Char) : List Char → List (List Char)
  | [] => [[]]
  | c :: r =>
      match pySplitChar sep r with
      | s :: ss => if c = sep then [] :: s :: ss else (c :: s) :: ss
      | [] => [[]]

/-- Python `str.split(sep, 1)` restricted to what `parse_params` needs:
`none` when the separator does not occur (models the `"=" in item` test). -/
def splitOnceChar (sep : Char) : List Char → Option (List Char × List Char)
  | [] => none
  | c :: r =>
      if c = sep then some ([], r)
      else (splitOnceChar sep r).map (fun p => (c :: p.1, p.2))

/-! ### `convert_numpy_to_python` (the numeric codec) -/

mutual

/-- Model of `convert_numpy_to_python`: recursively replaces boxed numpy
scalars by their plain equivalents in lists, tuples and dicts, and leaves
every other value unchanged. -/
def convVal : Val → Val
  | .vnp k => .vint k
  | .vlist xs => .vlist (convList xs)
  | .vtuple xs => .vtuple (convList xs)
  | .vdict ps => .vdict (convPairs ps)
  | v => v

def convList : List Val → List Val
  | [] => []
  | x :: xs => convVal x :: convList xs

def convPairs : List (Val × Val) → List (Val × Val)
  | [] => []
  | (k, v) :: ps => (convVal k, convVal v) :: convPairs ps

end

/-! ### `parse_params` -/

/-- Python `dict` assignment `params[key] = v` on an association list with
string keys: overwrite in place if the key is present, else append.
(`parse_params` only ever assigns string keys.) -/
def dictAssign (ps : List (Val × Val)) (key : String) (v : Val) :
    List (Val × Val) :=
  match ps with
  | [] => [(.vstr key, v)]
  | (k, w) :: rest =>
      match k with
      | .vstr s => if s = key then (k, v) :: rest else (k, w) :: dictAssign rest key v
      | _ => (k, w) :: dictAssign rest key v

/-- One `key=value` segment of the `;`-grammar: skipped when it has no `=`,
otherwise split once on the first `=`, both sides stripped, the value parsed
as a literal with fallback to the raw stripped string. -/
def paramStep (params : List (Val × Val)) (item : List Char) :
    List (Val × Val) :=
  match splitOnceChar '=' item with
  | none => params
  | some (k, v) =>
      let key := String.mk (pyStrip k)
      let value := pyStrip v
      match literalEvalL value with
      | some w => dictAssign params key w
      | none => dictAssign params key (.vstr (String.mk value))

/-- The full-dict-literal branch of `parse_params`: when the stripped text
is wrapped in braces and parses to a dict, that dict is the result. -/
def dictBranch (s : List Char) : Option (List (Val × Val)) :=
  if s.head? = some lbrace ∧ s.getLast? = some rbrace then
    match literalEvalL s with
    | some (.vdict ps) => some ps
    | _ => none
  else none

/-- Model of `parse_params`: empty input gives the empty mapping; a full
`{...}` literal that parses to a dict is returned as-is; otherwise the input
is split on `;` and each segment handled by `paramStep`. -/
def parse_params (sparams : String) : List (Val × Val) :=
  if sparams = "" then []
  else
    let s := pyStrip sparams.data
    match dictBranch s with
    | some ps => ps
    | none => (pySplitChar ';' s).foldl paramStep []

/-! ### Process state and `unchanged` -/

/-- The process-wide mutable globals of concore: the logical simulation time
`simtime`, the accumulated read fingerprint `s`, its value at the previous
`unchanged()` call (`olds`), and the shared retry counter. -/
structure St where
  simtime : Int
  s : String
  olds : String
  retrycount : Nat
deriving Repr, DecidableEq

/-- Model of `unchanged()`: if the fingerprint equals its previous value,
reset it and report `true`; otherwise record it and report `false`. -/
def unchanged (st : St) : Bool × St :=
  if st.olds = st.s then (true, { st with s := "" })
  else (false, { st with olds := st.s })

/-! ### Numeric checks shared by `read` and `initval` -/

/-- Python `isinstance(x, (int, float))` plus the numeric value: ints and
bools (a `bool` is an `int` in Python) are numeric; parsed literals are
never boxed numpy scalars. -/
def numOf : Val → Option Int
  | .vint n => some n
  | .vbool b => some (if b then 1 else 0)
  | _ => none

/-! ### Python `int(x)` on a port identifier -/

/-- The two Python exception classes relevant at the `int()` boundary:
`read`/`write` catch `ValueError` but not `TypeError`. -/
inductive PyKind where
  | valueErr
  | typeErr
deriving Repr, DecidableEq

def digitsVal (cs : List Char) : Nat :=
  cs.foldl (fun a c => a * 10 + digitVal c) 0

/-- Python `int()` applied to a string: strip whitespace, optional sign,
then a non-empty run of decimal digits; anything else raises `ValueError`. -/
def parseIntStr (cs0 : List Char) : Option Int :=
  let cs := pyStrip cs0
  match cs with
  | [] => none
  | c :: r =>
      if c = '-' then
        if r ≠ [] ∧ r.all Char.isDigit then some (-(digitsVal r : Int)) else none
      else if c = '+' then
        if r ≠ [] ∧ r.all Char.isDigit then some (digitsVal r : Int) else none
      else if cs.all Char.isDigit then some (digitsVal cs : Int)
      else none

/-- Python `int(x)`: ints, bools and numpy ints convert; a string converts
when it spells an integer and raises `ValueError` otherwise; `None`, lists,
tuples and dicts raise `TypeError`. -/
def pyInt : Val → Except PyKind Int
  | .vint n => .ok n
  | .vbool b => .ok (if b then 1 else 0)
  | .vnp n => .ok n
  | .vstr s =>
      match parseIntStr s.data with
      | some n => .ok n
      | none => .error .valueErr
  | _ => .error .typeErr

/-! ### `initval` -/

/-- The error conditions concore reports through its logging side channel. -/
inductive ErrKind where
  | invalidPort
  | unsupportedType
  | parseError
  | formatWarning
  | badFirstElement
  | notAList
  | readError
  | maxRetries
  | writeError
  | zmqError
  | sendFail
  | recvFail
deriving Repr, DecidableEq

/-- Model of `initval(simtime_val_str)`: parse the text; a non-empty list
with numeric first element seeds `simtime` and returns the rest; a non-empty
list with non-numeric first element returns the rest unchanged (empty when
it was a singleton) with an error logged; anything else returns `[]` with an
error logged.  Returns `(value, state, logged errors)`. -/
def initval (st : St) (text : String) : Val × St × List ErrKind :=
  match literalEval text with
  | some (.vlist (h :: t)) =>
      match numOf h with
      | some x => (.vlist t, { st with simtime := x }, [])
      | none => (.vlist t, st, [.badFirstElement])
  | some _ => (.vlist [], st, [.notAList])
  | none => (.vlist [], st, [.parseError])

/-! ### The read path -/

/-- The exception that can escape `read`/`write` in the modelled fragment:
`int(port_identifier)` raises `TypeError` for a non-string, non-numeric
identifier, and neither function catches it. -/
inductive PyErr where
  | typeError
deriving Repr, DecidableEq

/-- The outcome of one `open`/`read()` of the input file:
the file is absent (`FileNotFoundError`), some other I/O exception, or its
full text content. -/
inductive Attempt where
  | missing
  | ioError
  | content : String → Attempt

/-- The outcome of `recv_json_with_retry` as seen by `read`: a received
document, `None` after five timeouts, or an exception (ZMQError or other)
propagating out of the helper. -/
inductive RecvOutcome where
  | val : Val → RecvOutcome
  | exhausted
  | raiseZmq
  | raiseOther

/-- Everything `read` observes from the outside world: the registered ZMQ
port names, the behaviour of the socket, the polling delay, and the result
of the k-th open of the input file (k = 0 is the first read). -/
structure ReadEnv where
  zmqPorts : List String
  recv : RecvOutcome
  delay : Int
  file : Nat → Attempt

/-- `isinstance(port_identifier, str) and port_identifier in zmq_ports`. -/
def isZmqName (ports : List String) : Val → Bool
  | .vstr s => ports.contains s
  | _ => false

/-- `read`'s fallback: a string default is parsed with `literal_eval`,
keeping the raw string on parse failure; a non-string default is used
as-is. -/
def defaultReturn : Val → Val
  | .vstr t =>
      match literalEval t with
      | some v => v
      | none => .vstr t
  | v => v

/-- The observable result of a `read`: returned value, updated globals,
number of retry-loop iterations, the sleeps performed (in units of the
polling delay, in order), and the errors logged. -/
structure ReadOut where
  ret : Val
  st : St
  retries : Nat
  sleeps : List Int
  errors : List ErrKind

/-- The empty-content retry loop of `read`: while the content is empty and
fewer than five retries have happened, sleep, re-open the file (a retry that
raises keeps the previous content and logs a warning), and count the
attempt.  Returns the final content, the number of retries performed, and
the warnings logged. -/
def retryLoop (env : ReadEnv) : Nat → String → Nat → String × Nat × List ErrKind
  | 0, ins, k => (ins, k, [])
  | fuel + 1, ins, k =>
      if ins = "" then
        match env.file (k + 1) with
        | .content t => retryLoop env fuel t (k + 1)
        | _ =>
            let r := retryLoop env fuel ins (k + 1)
            (r.1, r.2.1, .readError :: r.2.2)
      else (ins, k, [])

/-- The file branch of `read`, after the initial content has been obtained:
run the retry loop, fall back to the default if still empty, else append to
the fingerprint and parse; a non-empty list has its numeric head folded into
`simtime` with `max` and its tail returned; a non-numeric head skips only
the time update; a non-list parse is returned as-is with a warning; a parse
failure yields the default. -/
def readParse (env : ReadEnv) (st : St) (ins0 : String) (dflt : Val) : ReadOut :=
  let r := retryLoop env 5 ins0 0
  let ins := r.1
  let k := r.2.1
  let warns := r.2.2
  let st1 := { st with retrycount := st.retrycount + k }
  let sleeps := List.replicate (k + 1) env.delay
  if ins = "" then
    ⟨dflt, st1, k, sleeps, warns ++ [.maxRetries]⟩
  else
    let st2 := { st1 with s := st1.s ++ ins }
    match literalEval ins with
    | some (.vlist (h :: t)) =>
        match numOf h with
        | some x => ⟨.vlist t, { st2 with simtime := max st2.simtime x }, k, sleeps, warns⟩
        | none => ⟨.vlist t, st2, k, sleeps, warns⟩
    | some v => ⟨v, st2, k, sleeps, warns ++ [.formatWarning]⟩
    | none => ⟨dflt, st2, k, sleeps, warns ++ [.parseError]⟩

/-- The file branch of `read` from the first open: a missing file
substitutes `str(initstr_val)` as the content and perturbs the fingerprint;
any other exception on the first open returns the default at once. -/
def readFile (env : ReadEnv) (st : St) (initstr : Val) (dflt : Val) : ReadOut :=
  match env.file 0 with
  | .ioError => ⟨dflt, st, 0, [env.delay], [.readError]⟩
  | .missing =>
      readParse env { st with s := st.s ++ pyStr initstr } (pyStr initstr) dflt
  | .content t => readParse env st t dflt

/-- Model of `read(port_identifier, name, initstr_val)`.  A registered ZMQ
name delegates to the socket (exceptions there are absorbed into the
default); otherwise the identifier is converted with `int()` — `ValueError`
is absorbed into the default, `TypeError` escapes — and the file branch
runs. -/
def read (env : ReadEnv) (st : St) (p : Val) (initstr : Val) :
    Except PyErr ReadOut :=
  let dflt := defaultReturn initstr
  if isZmqName env.zmqPorts p then
    match env.recv with
    | .val v => .ok ⟨v, st, 0, [], []⟩
    | .exhausted => .ok ⟨.vnone, st, 0, [], [.recvFail]⟩
    | .raiseZmq => .ok ⟨dflt, st, 0, [], [.zmqError]⟩
    | .raiseOther => .ok ⟨dflt, st, 0, [], [.zmqError]⟩
  else
    match pyInt p with
    | .error .typeErr => .error .typeError
    | .error .valueErr => .ok ⟨dflt, st, 0, [], [.invalidPort]⟩
    | .ok _ => .ok (readFile env st initstr dflt)

/-! ### The write path -/

/-- The outcome of `send_json_with_retry` as seen by `write`: sent, five
timeouts (logged, message dropped), or an exception propagating out of the
helper (caught by `write`). -/
inductive SendOutcome where
  | sent
  | exhausted
  | raiseZmq
  | raiseOther

/-- Everything `write` observes from the outside world. -/
structure WriteEnv where
  zmqPorts : List String
  send : SendOutcome
  delay : Int
  /-- whether `open`/`write` on the output file raises -/
  writeFails : Bool

def sendErrors : SendOutcome → List ErrKind
  | .sent => []
  | .exhausted => [.sendFail]
  | .raiseZmq => [.zmqError]
  | .raiseOther => [.zmqError]

/-- The output-file path `<outpath><port_number>/<name>`. -/
def outPathStr (k : Int) (name : String) : String :=
  "./out" ++ String.mk (intPr k) ++ "/" ++ name

/-- The observable result of a `write`: the message handed to the socket (if
any), the file write performed (path and full content, if any), updated
globals, sleeps, and errors logged. -/
structure WriteOut where
  sent : Option Val
  fileWrite : Option (String × String)
  st : St
  sleeps : List Int
  errors : List ErrKind

/-- Model of `write(port_identifier, name, val, delta)`.  NOTE: as in the
source, the ZMQ branch does not return — after attempting the socket send,
control falls through to the file branch, which converts the identifier
with `int()` (so a registered non-integer-like socket name additionally
logs an invalid-identifier error, and an integer-like one also writes the
file and advances `simtime`). -/
def write (env : WriteEnv) (st : St) (p : Val) (name : String) (val : Val)
    (delta : Int := 0) : Except PyErr WriteOut :=
  let zmqSent : Option Val := if isZmqName env.zmqPorts p then some val else none
  let zerrs : List ErrKind := if isZmqName env.zmqPorts p then sendErrors env.send else []
  match pyInt p with
  | .error .typeErr => .error .typeError
  | .error .valueErr => .ok ⟨zmqSent, none, st, [], zerrs ++ [.invalidPort]⟩
  | .ok k =>
      let path := outPathStr k name
      match val with
      | .vstr t =>
          if env.writeFails then
            .ok ⟨zmqSent, none, st, [2 * env.delay], zerrs ++ [.writeError]⟩
          else
            .ok ⟨zmqSent, some (path, t), st, [2 * env.delay], zerrs⟩
      | .vlist xs =>
          if env.writeFails then
            .ok ⟨zmqSent, none, st, [], zerrs ++ [.writeError]⟩
          else
            let envl := Val.vlist (Val.vint (st.simtime + delta) :: convList xs)
            .ok ⟨zmqSent, some (path, String.mk (prL envl)),
                 { st with simtime := st.simtime + delta }, [], zerrs⟩
      | _ => .ok ⟨zmqSent, none, st, [], zerrs ++ [.unsupportedType]⟩

/-- The content of the target file after a `write`, given its prior
content: unchanged unless the write actually wrote. -/
def fileAfter (prior : Option String) (out : WriteOut) : Option String :=
  match out.fileWrite with
  | some pc => some pc.2
  | none => prior

/-! ### Well-formed literal values

The print/parse round trip is proved for the fragment of `Val` whose
printed form Python's `repr` and this model agree on exactly: integers,
booleans, `None`, strings containing neither a single quote nor a
backslash, and nested lists of these. -/

mutual

def wfB : Val → Bool
  | .vint _ => true
  | .vbool _ => true
  | .vnone => true
  | .vstr s => s.data.all (fun c => !(c = squote) && !(c = bslash))
  | .vlist xs => wfLB xs
  | _ => false

def wfLB : List Val → Bool
  | [] => true
  | x :: xs => wfB x && wfLB xs

end

/-! ### Structural size, used to budget parser fuel -/

mutual

def sizeV : Val → Nat
  | .vlist xs => 1 + sizeL xs
  | _ => 1

def sizeL : List Val → Nat
  | [] => 1
  | x :: xs => 1 + sizeV x + sizeL xs

end

/-! ### Digit and integer printing/parsing lemmas -/

theorem one_le_sizeV (v : Val) : 1 ≤ sizeV v := by
  cases v <;> simp [sizeV]

theorem one_le_sizeL (xs : List Val) : 1 ≤ sizeL xs := by
  cases xs with
  | nil => simp [sizeL]
  | cons x xs => simp only [sizeL]; omega

theorem digitVal_digitChar {d : Nat} (h : d < 10) : digitVal (digitChar d) = d := by
  interval_cases d <;> rfl

theorem isDigit_digitChar {d : Nat} (h : d < 10) : (digitChar d).isDigit = true := by
  interval_cases d <;> rfl

/-- `natDigitsAux` with enough fuel produces a non-empty all-digit string
whose base-10 value is `n`. -/
theorem natDigitsAux_spec :
    ∀ fuel n, n < fuel →
      natDigitsAux fuel n ≠ [] ∧
      (∀ c ∈ natDigitsAux fuel n, c.isDigit = true) ∧
      digitsVal (natDigitsAux fuel n) = n := by
  intro fuel
  induction fuel with
  | zero => omega
  | succ m ih =>
      intro n hn
      by_cases h10 : n < 10
      · refine ⟨by simp [natDigitsAux, h10], ?_, ?_⟩
        · intro c hc
          simp [natDigitsAux, h10] at hc
          subst hc
          exact isDigit_digitChar h10
        · simp [natDigitsAux, h10, digitsVal, digitVal_digitChar h10]
      · have hdiv : n / 10 < m := by omega
        obtain ⟨hne, hdig, hval⟩ := ih (n / 10) hdiv
        have hbody : natDigitsAux (m + 1) n
            = natDigitsAux m (n / 10) ++ [digitChar (n % 10)] := by
          simp [natDigitsAux, h10]
        refine ⟨by simp [hbody], ?_, ?_⟩
        · intro c hc
          rw [hbody] at hc
          rcases List.mem_append.mp hc with h1 | h1
          · exact hdig c h1
          · simp at h1
            subst h1
            exact isDigit_digitChar (Nat.mod_lt _ (by omega))
        · rw [hbody]
          unfold digitsVal at hval ⊢
          rw [List.foldl_append, hval]
          simp only [List.foldl_cons, List.foldl_nil]
          rw [digitVal_digitChar (Nat.mod_lt _ (by omega))]
          omega

theorem natDigits_spec (n : Nat) :
    natDigits n ≠ [] ∧ (∀ c ∈ natDigits n, c.isDigit = true) ∧
    digitsVal (natDigits n) = n :=
  natDigitsAux_spec (n + 1) n (by omega)

/-- A rest list that begins with a separator expected after a printed list
element (or is empty). -/
def sepOk : List Char → Bool
  | [] => true
  | c :: _ => c = ',' || c = ']'

theorem sepOk_headNotDigit {rest : List Char} (h : sepOk rest = true) :
    ∀ c r, rest = c :: r → c.isDigit = false := by
  intro c r he
  subst he
  simp [sepOk] at h
  rcases h with h | h <;> subst h <;> rfl

theorem sepOk_headNotAlpha {rest : List Char} (h : sepOk rest = true) :
    ∀ c r, rest = c :: r → c.isAlpha = false := by
  intro c r he
  subst he
  simp [sepOk] at h
  rcases h with h | h <;> subst h <;> rfl

theorem parseDigitsAux_append :
    ∀ (ds rest : List Char) (acc : Nat), (∀ c ∈ ds, c.isDigit = true) →
      parseDigitsAux (ds ++ rest) acc
        = parseDigitsAux rest (ds.foldl (fun a c => a * 10 + digitVal c) acc) := by
  intro ds
  induction ds with
  | nil => intro rest acc _; rfl
  | cons c ds ih =>
      intro rest acc hd
      have hc : c.isDigit = true := hd c (by simp)
      simp only [List.cons_append, parseDigitsAux, hc, if_true, List.foldl_cons]
      exact ih rest _ (fun x hx => hd x (by simp [hx]))

theorem parseDigitsAux_stop (rest : List Char) (acc : Nat)
    (h : ∀ c r, rest = c :: r → c.isDigit = false) :
    parseDigitsAux rest acc = (acc, rest) := by
  cases rest with
  | nil => rfl
  | cons c r => simp [parseDigitsAux, h c r rfl]

/-- Parsing a printed non-empty digit run recovers its value. -/
theorem parseNat_digits {ds rest : List Char} (hne : ds ≠ [])
    (hd : ∀ c ∈ ds, c.isDigit = true)
    (hr : ∀ c r, rest = c :: r → c.isDigit = false) :
    parseNat (ds ++ rest) = some (digitsVal ds, rest) := by
  cases ds with
  | nil => exact absurd rfl hne
  | cons c ds' =>
      have hc : c.isDigit = true := hd c (by simp)
      simp only [List.cons_append, parseNat, hc, if_true]
      rw [parseDigitsAux_append ds' rest _ (fun x hx => hd x (by simp [hx]))]
      rw [parseDigitsAux_stop rest _ hr]
      simp [digitsVal]

theorem digit_not_minus {c : Char} (h : c.isDigit = true) : (c = '-') = False := by
  simp only [eq_iff_iff, iff_false]
  intro he
  subst he
  exact absurd h (by decide)

/-- Parsing the printed form of an integer recovers it. -/
theorem parseNumber_intPr (k : Int) (rest : List Char)
    (hr : ∀ c r, rest = c :: r → c.isDigit = false) :
    parseNumber (intPr k ++ rest) = some (.vint k, rest) := by
  obtain ⟨hne, hdig, hval⟩ := natDigits_spec k.natAbs
  by_cases hneg : k < 0
  · have hi : intPr k = '-' :: natDigits k.natAbs := by simp [intPr, hneg]
    rw [hi, List.cons_append]
    simp only [parseNumber, if_pos rfl]
    rw [parseNat_digits hne hdig hr]
    simp only [Option.map_some']
    have h2 : -(k.natAbs : Int) = k := by omega
    rw [hval, h2]
    simp only [if_true]
  · obtain ⟨c, ds', he⟩ := List.exists_cons_of_ne_nil hne
    have hc : c.isDigit = true := hdig c (by rw [he]; simp)
    have hgoal : parseNat (c :: (ds' ++ rest)) = some (digitsVal (natDigits k.natAbs), rest) := by
      rw [← List.cons_append, ← he]
      exact parseNat_digits hne hdig hr
    have hcons : intPr k ++ rest = c :: (ds' ++ rest) := by
      simp [intPr, if_neg hneg, he]
    rw [hcons]
    simp only [parseNumber, digit_not_minus hc, if_false, hgoal]
    simp only [Option.map_some']
    have h2 : (k.natAbs : Int) = k := by omega
    rw [hval, h2]

/-! ### String, keyword and whitespace lemmas -/

theorem skipWs_cons {c : Char} (l : List Char) (h : wsChar c = false) :
    skipWs (c :: l) = c :: l := by
  simp [skipWs, h]

theorem skipWs_space (l : List Char) : skipWs (' ' :: l) = skipWs l := by
  simp [skipWs, wsChar]

/-- Reading a printed string body stops exactly at the closing quote. -/
theorem takeStringChars_append (q : Char) :
    ∀ (s rest : List Char), (∀ c ∈ s, ¬ c = q) →
      takeStringChars q (s ++ q :: rest) = some (s, rest) := by
  intro s
  induction s with
  | nil => intro rest _; simp [takeStringChars]
  | cons c s ih =>
      intro rest hq
      have hc : ¬ c = q := hq c (by simp)
      simp only [List.cons_append, takeStringChars, if_neg hc, List.append_eq]
      rw [ih rest (fun x hx => hq x (by simp [hx]))]
      rfl

/-- A maximal alpha run stops exactly at a non-alpha continuation. -/
theorem takeAlpha_append :
    ∀ (l rest : List Char), (∀ c ∈ l, c.isAlpha = true) →
      (∀ c r, rest = c :: r → c.isAlpha = false) →
      takeAlpha (l ++ rest) = (l, rest) := by
  intro l
  induction l with
  | nil =>
      intro rest _ hr
      cases rest with
      | nil => rfl
      | cons c r => simp [takeAlpha, hr c r rfl]
  | cons c l ih =>
      intro rest hl hr
      have hc : c.isAlpha = true := hl c (by simp)
      simp only [List.cons_append, takeAlpha, hc, if_true, List.append_eq]
      rw [ih rest (fun x hx => hl x (by simp [hx])) hr]

/-! ### `parseVal` on printed atoms -/

theorem natDigitsAux_digitChar :
    ∀ fuel n, ∀ c ∈ natDigitsAux fuel n, ∃ d, d < 10 ∧ c = digitChar d := by
  intro fuel
  induction fuel with
  | zero => intro n c hc; simp [natDigitsAux] at hc
  | succ m ih =>
      intro n c hc
      by_cases h10 : n < 10
      · simp [natDigitsAux, h10] at hc
        exact ⟨n, h10, hc⟩
      · simp only [natDigitsAux, h10, if_false] at hc
        rcases List.mem_append.mp hc with h1 | h1
        · exact ih _ c h1
        · simp at h1
          exact ⟨n % 10, Nat.mod_lt _ (by omega), h1⟩

/-- Every fact the parser dispatch needs about a decimal digit character. -/
theorem digitChar_facts {d : Nat} (h : d < 10) :
    wsChar (digitChar d) = false ∧ (digitChar d = '[') = False ∧
    (digitChar d = lbrace) = False ∧ (digitChar d = squote) = False ∧
    (digitChar d = dquote) = False ∧ (digitChar d = '-') = False ∧
    (digitChar d = ']') = False ∧ (digitChar d = ',') = False ∧
    (digitChar d).isDigit = true := by
  interval_cases d <;> exact (by decide)

theorem sepOk_cons_sq (rest : List Char) : sepOk (']' :: rest) = true := rfl

theorem sepOk_cons_comma (rest : List Char) : sepOk (',' :: rest) = true := rfl

/-- `parseVal` (with any positive fuel) on a printed integer. -/
theorem parseVal_print_int (n : Nat) (k : Int) (rest : List Char)
    (hr : ∀ c r, rest = c :: r → c.isDigit = false) :
    parseVal (n + 1) (intPr k ++ rest) = some (.vint k, rest) := by
  by_cases hneg : k < 0
  · have hi : intPr k = '-' :: natDigits k.natAbs := by simp [intPr, hneg]
    have hnum := parseNumber_intPr k rest hr
    rw [hi] at hnum ⊢
    simp only [parseVal, List.cons_append, skipWs_cons _ (by decide : wsChar '-' = false)]
    norm_num
    exact hnum
  · obtain ⟨hne, hdig, hval⟩ := natDigits_spec k.natAbs
    obtain ⟨c, ds', he⟩ := List.exists_cons_of_ne_nil hne
    obtain ⟨d, hd10, hdc⟩ := natDigitsAux_digitChar _ _ c (by rw [← natDigits, he]; simp)
    obtain ⟨f1, f2, f3, f4, f5, f6, f7, f8, f9⟩ := digitChar_facts hd10
    have hi : intPr k = natDigits k.natAbs := by simp [intPr, hneg]
    have hnum := parseNumber_intPr k rest hr
    rw [hi, he] at hnum ⊢
    subst hdc
    simp only [parseVal, List.cons_append, skipWs_cons _ f1, f2, f3, f4, f5, f6, f9,
      Bool.or_false, Bool.false_or, if_false, if_true, eq_self_iff_true]
    simpa using hnum

/-- `parseVal` on a printed string literal whose body avoids the quote. -/
theorem parseVal_print_str (n : Nat) (s : String) (rest : List Char)
    (hq : ∀ c ∈ s.data, ¬ c = squote) :
    parseVal (n + 1) ((squote :: s.data ++ [squote]) ++ rest) = some (.vstr s, rest) := by
  have hassoc : (squote :: s.data ++ [squote]) ++ rest = squote :: (s.data ++ squote :: rest) := by
    simp
  rw [hassoc]
  simp only [parseVal, skipWs_cons _ (by decide : wsChar squote = false)]
  have f2 : (squote = '[') = False := by decide
  have f3 : (squote = lbrace) = False := by decide
  simp only [f2, f3, if_false, eq_self_iff_true, Bool.true_or, if_true]
  rw [takeStringChars_append squote s.data rest hq]
  rfl

theorem parseVal_print_true (n : Nat) (rest : List Char)
    (hr : ∀ c r, rest = c :: r → c.isAlpha = false) :
    parseVal (n + 1) ("True".data ++ rest) = some (.vbool true, rest) := by
  simp only [parseVal, List.cons_append, skipWs_cons _ (by decide : wsChar 'T' = false)]
  norm_num
  simp only [parseKeyword]
  rw [show ('r' :: 'u' :: 'e' :: rest) = ("rue".data ++ rest) from rfl,
    ← List.cons_append,
    takeAlpha_append "True".data rest (by decide) hr]
  simp [(by decide : ('T' = lbrace) = False), (by decide : ('T' = squote) = False),
    (by decide : ('T' = dquote) = False)]

theorem parseVal_print_false (n : Nat) (rest : List Char)
    (hr : ∀ c r, rest = c :: r → c.isAlpha = false) :
    parseVal (n + 1) ("False".data ++ rest) = some (.vbool false, rest) := by
  simp only [parseVal, List.cons_append, skipWs_cons _ (by decide : wsChar 'F' = false)]
  norm_num
  simp only [parseKeyword]
  rw [show ('a' :: 'l' :: 's' :: 'e' :: rest) = ("alse".data ++ rest) from rfl,
    ← List.cons_append,
    takeAlpha_append "False".data rest (by decide) hr]
  simp [(by decide : ('F' = lbrace) = False), (by decide : ('F' = squote) = False),
    (by decide : ('F' = dquote) = False)]

theorem parseVal_print_none (n : Nat) (rest : List Char)
    (hr : ∀ c r, rest = c :: r → c.isAlpha = false) :
    parseVal (n + 1) ("None".data ++ rest) = some (.vnone, rest) := by
  simp only [parseVal, List.cons_append, skipWs_cons _ (by decide : wsChar 'N' = false)]
  norm_num
  simp only [parseKeyword]
  rw [show ('o' :: 'n' :: 'e' :: rest) = ("one".data ++ rest) from rfl,
    ← List.cons_append,
    takeAlpha_append "None".data rest (by decide) hr]
  simp [(by decide : ('N' = lbrace) = False), (by decide : ('N' = squote) = False),
    (by decide : ('N' = dquote) = False)]

/-! ### The print/parse round trip -/

/-- The head character of the printed form of a well-formed value is never
whitespace, `]` or `,` — so a parser positioned at a printed element neither
skips anything nor mistakes it for a list delimiter. -/
theorem prL_head (v : Val) (h : wfB v = true) :
    ∃ c l, prL v = c :: l ∧ wsChar c = false ∧ (c = ']') = False ∧ (c = ',') = False := by
  cases v with
  | vint k =>
      by_cases hneg : k < 0
      · refine ⟨'-', natDigits k.natAbs, ?_, by decide, by decide, by decide⟩
        simp [prL, intPr, hneg]
      · obtain ⟨hne, _, _⟩ := natDigits_spec k.natAbs
        obtain ⟨c, ds', he⟩ := List.exists_cons_of_ne_nil hne
        obtain ⟨d, hd10, hdc⟩ := natDigitsAux_digitChar _ _ c (by rw [← natDigits, he]; simp)
        obtain ⟨f1, _, _, _, _, _, f7, f8, _⟩ := digitChar_facts hd10
        subst hdc
        exact ⟨_, ds', by simp [prL, intPr, hneg, he], f1, f7, f8⟩
  | vbool b =>
      cases b
      · exact ⟨'F', "alse".data, by simp [prL], by decide, by decide, by decide⟩
      · exact ⟨'T', "rue".data, by simp [prL], by decide, by decide, by decide⟩
  | vnone => exact ⟨'N', "one".data, by simp [prL], by decide, by decide, by decide⟩
  | vstr s =>
      exact ⟨squote, s.data ++ [squote], by simp [prL], by decide, by decide, by decide⟩
  | vlist xs =>
      exact ⟨'[', prInner xs ++ [']'], by simp [prL], by decide, by decide, by decide⟩
  | vtuple xs => exact absurd h (by simp [wfB])
  | vdict ps => exact absurd h (by simp [wfB])
  | vnp k => exact absurd h (by simp [wfB])

theorem parseElems_space (n : Nat) (l : List Char) :
    parseElems n (' ' :: l) = parseElems n l := by
  cases n with
  | zero => rfl
  | succ m => simp only [parseElems, skipWs_space]

/-- Core round trip: with fuel at least the structural size, the parser
recovers exactly the printed well-formed value (element lists likewise,
up to the closing bracket). -/
theorem parse_print :
    ∀ n : Nat,
      (∀ v rest, wfB v = true → sizeV v ≤ n → sepOk rest = true →
        parseVal n (prL v ++ rest) = some (v, rest)) ∧
      (∀ xs rest, wfLB xs = true → sizeL xs ≤ n →
        parseElems n (prInner xs ++ ']' :: rest) = some (xs, rest)) := by
  intro n
  induction n with
  | zero =>
      constructor
      · intro v _ _ hsz _
        exact absurd hsz (by have := one_le_sizeV v; omega)
      · intro xs _ _ hsz
        exact absurd hsz (by have := one_le_sizeL xs; omega)
  | succ n ih =>
      obtain ⟨ihV, ihE⟩ := ih
      constructor
      · intro v rest hwf hsz hsep
        cases v with
        | vint k => exact parseVal_print_int n k rest (sepOk_headNotDigit hsep)
        | vbool b =>
            cases b
            · have he : prL (.vbool false) = "False".data := by simp [prL]
              rw [he]
              exact parseVal_print_false n rest (sepOk_headNotAlpha hsep)
            · have he : prL (.vbool true) = "True".data := by simp [prL]
              rw [he]
              exact parseVal_print_true n rest (sepOk_headNotAlpha hsep)
        | vnone =>
            have he : prL .vnone = "None".data := by simp [prL]
            rw [he]
            exact parseVal_print_none n rest (sepOk_headNotAlpha hsep)
        | vstr s =>
            have hq : ∀ c ∈ s.data, ¬ c = squote := by
              simp only [wfB, List.all_eq_true, Bool.and_eq_true] at hwf
              intro c hc
              simpa using (hwf c hc).1
            have he : prL (.vstr s) = squote :: s.data ++ [squote] := by simp [prL]
            rw [he]
            exact parseVal_print_str n s rest hq
        | vlist xs =>
            have hwf' : wfLB xs = true := by simpa [wfB] using hwf
            have hsz' : sizeL xs ≤ n := by
              simp only [sizeV] at hsz
              omega
            have he : prL (.vlist xs) ++ rest = '[' :: (prInner xs ++ ']' :: rest) := by
              simp [prL]
            rw [he]
            simp only [parseVal, skipWs_cons _ (by decide : wsChar '[' = false),
              eq_self_iff_true, if_true]
            rw [ihE xs rest hwf' hsz']
            rfl
        | vtuple xs => exact absurd hwf (by simp [wfB])
        | vdict ps => exact absurd hwf (by simp [wfB])
        | vnp k => exact absurd hwf (by simp [wfB])
      · intro xs rest hwf hsz
        cases xs with
        | nil =>
            simp only [prInner, List.nil_append, parseElems,
              skipWs_cons _ (by decide : wsChar ']' = false), eq_self_iff_true, if_true]
        | cons x xs' =>
            have hwfx : wfB x = true := by
              simp only [wfLB, Bool.and_eq_true] at hwf
              exact hwf.1
            have hwfs : wfLB xs' = true := by
              simp only [wfLB, Bool.and_eq_true] at hwf
              exact hwf.2
            obtain ⟨c, l, hel, f1, f2, f3⟩ := prL_head x hwfx
            cases xs' with
            | nil =>
                have hszx : sizeV x ≤ n := by
                  simp only [sizeL] at hsz
                  have := one_le_sizeL ([] : List Val)
                  omega
                have hone : prInner [x] ++ ']' :: rest = c :: (l ++ ']' :: rest) := by
                  simp [prInner, hel]
                rw [hone]
                simp only [parseElems, skipWs_cons _ f1, f2, if_false]
                have hx : parseVal n (c :: (l ++ ']' :: rest)) = some (x, ']' :: rest) := by
                  rw [show c :: (l ++ ']' :: rest) = prL x ++ ']' :: rest from by simp [hel]]
                  exact ihV x (']' :: rest) hwfx hszx (sepOk_cons_sq rest)
                rw [hx]
                simp only [skipWs_cons _ (by decide : wsChar ']' = false),
                  (by decide : (']' = ',') = False), if_false, eq_self_iff_true, if_true]
            | cons y ys =>
                have hszx : sizeV x ≤ n := by
                  simp only [sizeL] at hsz
                  have := one_le_sizeL (y :: ys)
                  omega
                have hszs : sizeL (y :: ys) ≤ n := by
                  simp only [sizeL] at hsz ⊢
                  have := one_le_sizeV x
                  omega
                have htwo : prInner (x :: y :: ys) ++ ']' :: rest
                    = c :: (l ++ ',' :: ' ' :: (prInner (y :: ys) ++ ']' :: rest)) := by
                  simp [prInner, hel]
                rw [htwo]
                simp only [parseElems, skipWs_cons _ f1, f2, if_false]
                have hx : parseVal n (c :: (l ++ ',' :: ' ' :: (prInner (y :: ys) ++ ']' :: rest)))
                    = some (x, ',' :: ' ' :: (prInner (y :: ys) ++ ']' :: rest)) := by
                  rw [show c :: (l ++ ',' :: ' ' :: (prInner (y :: ys) ++ ']' :: rest))
                      = prL x ++ ',' :: ' ' :: (prInner (y :: ys) ++ ']' :: rest) from by
                    simp [hel]]
                  exact ihV x _ hwfx hszx (sepOk_cons_comma _)
                rw [hx]
                simp only [skipWs_cons _ (by decide : wsChar ',' = false),
                  eq_self_iff_true, if_true]
                rw [parseElems_space, ihE (y :: ys) rest hwfs hszs]
                rfl

theorem prL_ne_nil (v : Val) (h : wfB v = true) : prL v ≠ [] := by
  obtain ⟨c, l, hel, -, -, -⟩ := prL_head v h
  simp [hel]

theorem atom_size_le (v : Val) (hwf : wfB v = true) (h1 : sizeV v = 1) :
    sizeV v ≤ 2 * (prL v).length := by
  have hne := prL_ne_nil v hwf
  have hlen : 1 ≤ (prL v).length := by
    cases hpr : prL v with
    | nil => exact absurd hpr hne
    | cons c l => simp
  omega

/-- The structural size is bounded by twice the printed length, so the fuel
`literalEvalL` allots (`2 * length + 2`) always suffices for a printed
well-formed value. -/
theorem size_le_print :
    ∀ n : Nat,
      (∀ v, wfB v = true → sizeV v ≤ n → sizeV v ≤ 2 * (prL v).length) ∧
      (∀ xs, wfLB xs = true → sizeL xs ≤ n → sizeL xs ≤ 2 * (prInner xs).length + 2) := by
  intro n
  induction n with
  | zero =>
      constructor
      · intro v _ hsz
        exact absurd hsz (by have := one_le_sizeV v; omega)
      · intro xs _ hsz
        exact absurd hsz (by have := one_le_sizeL xs; omega)
  | succ n ih =>
      obtain ⟨ihV, ihE⟩ := ih
      constructor
      · intro v hwf hsz
        cases v with
        | vlist xs =>
            have hwf' : wfLB xs = true := by simpa [wfB] using hwf
            have hsz' : sizeL xs ≤ n := by
              simp only [sizeV] at hsz
              omega
            have hlen : (prL (.vlist xs)).length = (prInner xs).length + 2 := by
              simp [prL]
            have := ihE xs hwf' hsz'
            simp only [sizeV, hlen]
            omega
        | vtuple xs => exact absurd hwf (by simp [wfB])
        | vdict ps => exact absurd hwf (by simp [wfB])
        | vint k => exact atom_size_le _ hwf (by simp [sizeV])
        | vbool b => exact atom_size_le _ hwf (by simp [sizeV])
        | vnone => exact atom_size_le _ hwf (by simp [sizeV])
        | vstr s => exact atom_size_le _ hwf (by simp [sizeV])
        | vnp k => exact absurd hwf (by simp [wfB])
      · intro xs hwf hsz
        cases xs with
        | nil => simp [sizeL, prInner]
        | cons x xs' =>
            have hwfx : wfB x = true := by
              simp only [wfLB, Bool.and_eq_true] at hwf
              exact hwf.1
            have hwfs : wfLB xs' = true := by
              simp only [wfLB, Bool.and_eq_true] at hwf
              exact hwf.2
            cases xs' with
            | nil =>
                have hszx : sizeV x ≤ n := by
                  simp only [sizeL] at hsz
                  have := one_le_sizeL ([] : List Val)
                  omega
                have hx := ihV x hwfx hszx
                simp only [sizeL, prInner]
                omega
            | cons y ys =>
                have hszx : sizeV x ≤ n := by
                  simp only [sizeL] at hsz
                  have := one_le_sizeL (y :: ys)
                  omega
                have hszs : sizeL (y :: ys) ≤ n := by
                  simp only [sizeL] at hsz ⊢
                  have := one_le_sizeV x
                  omega
                have hx := ihV x hwfx hszx
                have hs := ihE (y :: ys) hwfs hszs
                have hlen : (prInner (x :: y :: ys)).length
                    = (prL x).length + 2 + (prInner (y :: ys)).length := by
                  simp [prInner]
                  omega
                simp only [sizeL] at hs ⊢
                rw [hlen]
                omega

/-- `literal_eval` inverts Python `str` on well-formed values: the
round trip of the payload envelope through the file. -/
theorem literalEvalL_prL (v : Val) (h : wfB v = true) :
    literalEvalL (prL v) = some v := by
  have hsz : sizeV v ≤ 2 * (prL v).length + 2 := by
    have := (size_le_print (sizeV v)).1 v h le_rfl
    omega
  have hp := (parse_print (2 * (prL v).length + 2)).1 v [] h hsz (by rfl)
  rw [List.append_nil] at hp
  simp [literalEvalL, hp, skipWs]

theorem literalEval_prL (v : Val) (h : wfB v = true) :
    literalEval (String.mk (prL v)) = some v := literalEvalL_prL v h

/-! ### Helper lemmas about the read/write state -/

theorem retryLoop_nonempty (env : ReadEnv) (fuel : Nat) (ins : String) (k : Nat)
    (h : ins ≠ "") : retryLoop env fuel ins k = (ins, k, []) := by
  cases fuel with
  | zero => rfl
  | succ m => simp [retryLoop, h]

theorem readParse_simtime (env : ReadEnv) (st : St) (ins : String) (dflt : Val) :
    st.simtime ≤ (readParse env st ins dflt).st.simtime := by
  simp only [readParse]
  split
  · exact le_refl _
  · split
    · split
      · exact le_max_left _ _
      · exact le_refl _
    · exact le_refl _
    · exact le_refl _

theorem readFile_simtime (env : ReadEnv) (st : St) (i dflt : Val) :
    st.simtime ≤ (readFile env st i dflt).st.simtime := by
  cases hf : env.file 0 with
  | ioError => simp [readFile, hf]
  | missing =>
      have := readParse_simtime env { st with s := st.s ++ pyStr i } (pyStr i) dflt
      simpa [readFile, hf] using this
  | content t =>
      have := readParse_simtime env st t dflt
      simpa [readFile, hf] using this

/-! ### Concrete states and environments used by witnesses -/

def st0 : St := ⟨0, "", "", 0⟩

def fileEmptyEnv : ReadEnv := ⟨[], .exhausted, 1, fun _ => .content ""⟩

def fileMissingEnv : ReadEnv := ⟨[], .exhausted, 1, fun _ => .missing⟩

def fileContentEnv (t : String) : ReadEnv :=
  ⟨[], .exhausted, 1, fun k => if k = 0 then .content t else .missing⟩

def plainWriteEnv : WriteEnv := ⟨[], .sent, 1, false⟩

/-- `isinstance(val, (str, list))`: the two value kinds a file-port write
supports. -/
def isStrOrList : Val → Bool
  | .vstr _ => true
  | .vlist _ => true
  | _ => false

/-- `isinstance(p, (str, int))`-like guard on port identifiers (including
bools and numpy ints, which Python `int()` accepts). -/
def okPortKind : Val → Bool
  | .vstr _ => true
  | .vint _ => true
  | .vbool _ => true
  | .vnp _ => true
  | _ => false

/-! ### Claims -/

/-- C1 (amended): logical time is monotone across `read` unconditionally,
and across `write` provided the caller's `delta` is non-negative: `read`
only moves `simtime` to `max(current, incoming)`, and `write` adds
`delta`. -/
theorem claim_C1_monotone :
    (∀ env st p i out, read env st p i = .ok out → st.simtime ≤ out.st.simtime) ∧
    (∀ env st p nm v d out, 0 ≤ d → write env st p nm v d = .ok out →
      st.simtime ≤ out.st.simtime) := by
  constructor
  · intro env st p i out h
    unfold read at h
    by_cases hz : isZmqName env.zmqPorts p
    · rw [if_pos hz] at h
      cases hr : env.recv <;> rw [hr] at h <;>
        (injection h with h2; rw [← h2])
    · rw [if_neg hz] at h
      cases hp : pyInt p with
      | error e =>
          cases e <;> rw [hp] at h
          · injection h with h2
            rw [← h2]
          · exact absurd h (by simp)
      | ok k =>
          rw [hp] at h
          injection h with h2
          rw [← h2]
          exact readFile_simtime env st i (defaultReturn i)
  · intro env st p nm v d out hd h
    unfold write at h
    cases hp : pyInt p with
    | error e =>
        cases e <;> rw [hp] at h
        · injection h with h2
          rw [← h2]
        · exact absurd h (by simp)
    | ok k =>
        rw [hp] at h
        cases v with
        | vstr t =>
            by_cases hw : env.writeFails <;> simp only [hw, if_true, if_false] at h <;>
              (injection h with h2; rw [← h2])
        | vlist xs =>
            by_cases hw : env.writeFails <;> simp only [hw, if_true, if_false] at h
            · injection h with h2
              rw [← h2]
            · injection h with h2
              rw [← h2]
              simp only
              omega
        | vint m => injection h with h2; rw [← h2]
        | vbool b => injection h with h2; rw [← h2]
        | vnone => injection h with h2; rw [← h2]
        | vtuple xs => injection h with h2; rw [← h2]
        | vdict ps => injection h with h2; rw [← h2]
        | vnp m => injection h with h2; rw [← h2]

/-- C1 counterexample: as stated, the claim fails for a negative `delta` —
a file-port list write with `delta = -1` from time `0` drives `simtime`
to `-1`, strictly below its pre-operation value. -/
theorem claim_C1_cx :
    (write plainWriteEnv st0 (.vint 1) "x" (.vlist []) (-1)).map (fun o => o.st.simtime)
        = .ok (-1) ∧ (-1 : Int) < st0.simtime := by
  constructor
  · rfl
  · decide

/-- Witness: C1 at concrete inputs (a successful read and a `delta = 2`
write), with the hypotheses discharged. -/
theorem claim_C1_monotone_witness :
    st0.simtime ≤ ((read (fileContentEnv "[7, 3]") st0 (.vint 1)
        (.vstr "[0, 0]")).toOption.getD ⟨.vnone, st0, 0, [], []⟩).st.simtime ∧
    st0.simtime ≤ ((write plainWriteEnv st0 (.vint 1) "x" (.vlist [.vint 5])
        2).toOption.getD ⟨none, none, st0, [], []⟩).st.simtime := by
  constructor
  · exact claim_C1_monotone.1 (fileContentEnv "[7, 3]") st0 (.vint 1) (.vstr "[0, 0]") _ rfl
  · exact claim_C1_monotone.2 plainWriteEnv st0 (.vint 1) "x" (.vlist [.vint 5]) 2 _
      (by decide) rfl

/-- C6: a file-port write of a value that is neither text nor a list is
reported as `UnsupportedWriteType` and is a complete no-op: nothing is sent
or written, the state (including `simtime`) is untouched, and the target
file's prior content is unchanged. -/
theorem claim_C6_unsupported_write (env : WriteEnv) (st : St) (p : Val) (nm : String)
    (val : Val) (d : Int) (prior : Option String) (k : Int)
    (hz : isZmqName env.zmqPorts p = false)
    (hp : pyInt p = .ok k)
    (hv : isStrOrList val = false) :
    write env st p nm val d = .ok ⟨none, none, st, [], [.unsupportedType]⟩ ∧
    fileAfter prior ⟨none, none, st, [], [.unsupportedType]⟩ = prior := by
  refine ⟨?_, rfl⟩
  cases val <;> simp_all [write, isStrOrList]

/-- Witness: C6 at a concrete integer write. -/
theorem claim_C6_unsupported_write_witness :
    write plainWriteEnv st0 (.vint 1) "x" (.vint 7) 2
        = .ok ⟨none, none, st0, [], [.unsupportedType]⟩ ∧
    fileAfter (some "old") ⟨none, none, st0, [], [.unsupportedType]⟩ = some "old" :=
  claim_C6_unsupported_write plainWriteEnv st0 (.vint 1) "x" (.vint 7) 2
    (some "old") 1 rfl rfl rfl

/-- C9: `unchanged()` returns `true` and clears the fingerprint exactly when
the accumulated fingerprint equals its value at the previous call, and
otherwise records the current fingerprint and returns `false`. -/
theorem claim_C9_unchanged (st : St) :
    (st.olds = st.s → unchanged st = (true, { st with s := "" })) ∧
    (st.olds ≠ st.s → unchanged st = (false, { st with olds := st.s })) := by
  constructor
  · intro h
    simp [unchanged, h]
  · intro h
    simp [unchanged, h]

/-- Witness: C9 on equal and differing fingerprints. -/
theorem claim_C9_unchanged_witness :
    unchanged ⟨0, "ab", "ab", 0⟩ = (true, ⟨0, "", "ab", 0⟩) ∧
    unchanged ⟨0, "ab", "cd", 0⟩ = (false, ⟨0, "ab", "ab", 0⟩) :=
  ⟨(claim_C9_unchanged ⟨0, "ab", "ab", 0⟩).1 rfl,
   (claim_C9_unchanged ⟨0, "ab", "cd", 0⟩).2 (by decide)⟩

/-- C3 (amended): when every open of the file (the first and the five
retries) yields empty content, `read` performs exactly 5 retries, each
preceded by the fixed polling pause (six pauses in all, counting the initial
one), increments the shared retry counter by 5, and returns the caller's
default. -/
theorem claim_C3_retry (env : ReadEnv) (st : St) (p i : Val) (k : Int)
    (hz : isZmqName env.zmqPorts p = false)
    (hp : pyInt p = .ok k)
    (hf : ∀ j, j ≤ 5 → env.file j = .content "") :
    read env st p i = .ok ⟨defaultReturn i, { st with retrycount := st.retrycount + 5 },
      5, List.replicate 6 env.delay, [.maxRetries]⟩ := by
  have h0 : env.file 0 = .content "" := hf 0 (by omega)
  have h1 : env.file 1 = .content "" := hf 1 (by omega)
  have h2 : env.file 2 = .content "" := hf 2 (by omega)
  have h3 : env.file 3 = .content "" := hf 3 (by omega)
  have h4 : env.file 4 = .content "" := hf 4 (by omega)
  have h5 : env.file 5 = .content "" := hf 5 (by omega)
  have hrl : retryLoop env 5 "" 0 = ("", 5, []) := by
    simp [retryLoop, h1, h2, h3, h4, h5]
  unfold read readFile readParse
  simp [hz, hp, h0, hrl, List.replicate]

/-- C3 counterexample: a permanently *missing* file does not retry at all —
the first failed open substitutes `str(initstr_val)` as the content, which
is then parsed and envelope-stripped, so the result is `[0]` (not the
default `[0, 0]`) after 0 retries instead of 5. -/
theorem claim_C3_cx :
    read fileMissingEnv st0 (.vint 1) (.vstr "[0, 0]")
        = .ok ⟨.vlist [.vint 0], ⟨0, "[0, 0][0, 0]", "", 0⟩, 0, [1], []⟩ ∧
    defaultReturn (.vstr "[0, 0]") = .vlist [.vint 0, .vint 0] ∧
    (Val.vlist [.vint 0] = Val.vlist [.vint 0, .vint 0]) = False := by
  refine ⟨rfl, rfl, ?_⟩
  simp

/-- Witness: C3 on a concrete permanently-empty file. -/
theorem claim_C3_retry_witness :
    read fileEmptyEnv st0 (.vint 1) (.vstr "[0, 0]")
        = .ok ⟨.vlist [.vint 0, .vint 0], ⟨0, "", "", 5⟩, 5,
            List.replicate 6 1, [.maxRetries]⟩ := by
  have h := claim_C3_retry fileEmptyEnv st0 (.vint 1) (.vstr "[0, 0]") 1 rfl rfl
    (fun j _ => rfl)
  simpa using h

/-- C10: a file read whose content parses to a non-empty list with a
non-numeric first element still strips that element and returns the rest,
and skips the time advance: `simtime` (and everything but the fingerprint)
is left unchanged; no error is logged. -/
theorem claim_C10_nonnumeric_head (env : ReadEnv) (st : St) (p i : Val) (k : Int)
    (text : String) (h : Val) (t : List Val)
    (hz : isZmqName env.zmqPorts p = false)
    (hp : pyInt p = .ok k)
    (hf : env.file 0 = .content text)
    (hne : text ≠ "")
    (hev : literalEval text = some (.vlist (h :: t)))
    (hnum : numOf h = none) :
    read env st p i = .ok ⟨.vlist t, { st with s := st.s ++ text }, 0, [env.delay], []⟩ := by
  unfold read readFile readParse
  simp [hz, hp, hf, hne, retryLoop_nonempty env 5 text 0 hne, hev, hnum, List.replicate]

/-- Witness: C10 on a list whose head is a string. -/
theorem claim_C10_nonnumeric_head_witness :
    read (fileContentEnv "[\"x\", \"y\"]") st0 (.vint 1) (.vint 0)
        = .ok ⟨.vlist [.vstr "y"], ⟨0, "[\"x\", \"y\"]", "", 0⟩, 0, [1], []⟩ := by
  have h := claim_C10_nonnumeric_head (fileContentEnv "[\"x\", \"y\"]") st0 (.vint 1)
    (.vint 0) 1 "[\"x\", \"y\"]" (.vstr "x") [.vstr "y"] rfl rfl rfl (by decide) rfl rfl
  simpa using h

/-- `read`/`write` produced a value rather than raising. -/
def isOkE {α : Type} : Except PyErr α → Bool
  | .ok _ => true
  | .error _ => false

theorem pyInt_no_type (p : Val) (hp : okPortKind p = true) :
    pyInt p ≠ .error .typeErr := by
  cases p <;> simp_all [okPortKind, pyInt]
  cases parseIntStr _ <;> simp

/-- C4 (amended): for every port identifier of a kind `int()` accepts
(string, int, bool, numpy int) and all other arguments, neither `read` nor
`write` raises: every internal failure is absorbed into the caller-visible
default (read) or a logged no-op (write). -/
theorem claim_C4_no_raise (renv : ReadEnv) (wenv : WriteEnv) (st : St) (p i : Val)
    (nm : String) (v : Val) (d : Int) (hp : okPortKind p = true) :
    isOkE (read renv st p i) = true ∧ isOkE (write wenv st p nm v d) = true := by
  have hnt := pyInt_no_type p hp
  constructor
  · unfold read
    by_cases hz : isZmqName renv.zmqPorts p
    · simp only [hz, if_true]
      cases renv.recv <;> simp [isOkE]
    · simp only [hz, if_false]
      cases hpi : pyInt p with
      | ok k => simp [isOkE]
      | error e =>
          cases e
          · simp [isOkE]
          · exact absurd hpi hnt
  · unfold write
    cases hpi : pyInt p with
    | ok k =>
        cases v <;> simp only [hpi] <;> first
          | rfl
          | (split <;> rfl)
    | error e =>
        cases e
        · simp [isOkE]
        · exact absurd hpi hnt

/-- C4 counterexample: with `port_identifier = None`, `int(None)` raises
`TypeError`, which neither `read` nor `write` catches — the exception
escapes to the caller. -/
theorem claim_C4_cx :
    read fileEmptyEnv st0 .vnone (.vint 0) = .error .typeError ∧
    write plainWriteEnv st0 .vnone "x" (.vlist []) 0 = .error .typeError :=
  ⟨rfl, rfl⟩

/-- Witness: C4 at a non-numeric string identifier (the `ValueError` path,
absorbed into the default / no-op). -/
theorem claim_C4_no_raise_witness :
    isOkE (read fileEmptyEnv st0 (.vstr "abc") (.vint 0)) = true ∧
    isOkE (write plainWriteEnv st0 (.vstr "abc") "x" (.vlist []) 0) = true :=
  claim_C4_no_raise fileEmptyEnv plainWriteEnv st0 (.vstr "abc") (.vint 0) "x"
    (.vlist []) 0 rfl

def zmqIntWriteEnv : WriteEnv := ⟨["5"], .sent, 1, false⟩

def zmqNameWriteEnv : WriteEnv := ⟨["sock"], .sent, 1, false⟩

/-- C5: the socket branch of `write` does attempt `send` with the value
as-is, but (unlike `read`) it does not return: control falls through to the
file branch.  With the registered integer-like name `"5"` the same call
also resolves a file path, writes the envelope, and advances `simtime` by
`delta`; with the registered name `"sock"` it logs `InvalidPortIdentifier`.
Both contradict the claim's frame conditions (a missing `return` in the
source). -/
theorem claim_C5_fallthrough :
    write zmqIntWriteEnv st0 (.vstr "5") "x" (.vlist [.vint 1]) 2
        = .ok ⟨some (.vlist [.vint 1]), some ("./out5/x", "[2, 1]"),
            ⟨2, "", "", 0⟩, [], []⟩ ∧
    write zmqNameWriteEnv st0 (.vstr "sock") "x" (.vlist [.vint 1]) 2
        = .ok ⟨some (.vlist [.vint 1]), none, st0, [], [.invalidPort]⟩ :=
  ⟨rfl, rfl⟩

/-- C7: the parameter grammar.  The three concrete examples from the spec,
plus the general shape: a `;`-segment without `=` is silently skipped, a
segment with `=` is split once on the first `=`, both sides stripped, the
value parsed as a literal with fallback to the raw stripped string, and the
whole non-dict input is the left fold of this step over the `;`-split. -/
theorem claim_C7_grammar :
    parse_params "a=1;b=foo;c=[1,2]"
        = [(.vstr "a", .vint 1), (.vstr "b", .vstr "foo"),
           (.vstr "c", .vlist [.vint 1, .vint 2])] ∧
    parse_params "\x7b\"a\": 1, \"b\": 2\x7d"
        = [(.vstr "a", .vint 1), (.vstr "b", .vint 2)] ∧
    parse_params "" = [] ∧
    (∀ s, s ≠ "" → dictBranch (pyStrip s.data) = none →
      parse_params s = (pySplitChar ';' (pyStrip s.data)).foldl paramStep []) ∧
    (∀ ps item, splitOnceChar '=' item = none → paramStep ps item = ps) ∧
    (∀ ps item k v, splitOnceChar '=' item = some (k, v) →
      paramStep ps item = dictAssign ps (String.mk (pyStrip k))
        ((literalEvalL (pyStrip v)).getD (.vstr (String.mk (pyStrip v))))) := by
  refine ⟨rfl, rfl, rfl, ?_, ?_, ?_⟩
  · intro s h1 h2
    simp [parse_params, h1, h2]
  · intro ps item h
    simp [paramStep, h]
  · intro ps item k v h
    cases he : literalEvalL (pyStrip v) <;> simp [paramStep, h, he]

/-- Witness: C7's general clauses at a concrete input. -/
theorem claim_C7_grammar_witness :
    parse_params "x=2;junk" = [(.vstr "x", .vint 2)] ∧
    paramStep [] "junk".data = [] ∧
    paramStep [] " x = 2 ".data = [(.vstr "x", .vint 2)] := by
  refine ⟨?_, ?_, ?_⟩
  · exact (claim_C7_grammar.2.2.2.1 "x=2;junk" (by decide) rfl).trans rfl
  · exact claim_C7_grammar.2.2.2.2.1 [] "junk".data rfl
  · exact (claim_C7_grammar.2.2.2.2.2 [] " x = 2 ".data " x ".data " 2 ".data rfl).trans rfl

/-- A parsed value that is a non-empty Python list. -/
def isNonEmptyList : Val → Bool
  | .vlist (_ :: _) => true
  | _ => false

/-- The spec's example input `"[5, 'a', 'b']"` (single quotes as Python
prints them). -/
def strFiveAB : String :=
  String.mk ("[5, ".data ++ squote :: 'a' :: squote :: ", ".data
    ++ squote :: 'b' :: squote :: "]".data)

/-- The input `"['a', 'b']"`: parses to a non-empty list with a non-numeric
first element. -/
def strAB : String :=
  String.mk ("[".data ++ squote :: 'a' :: squote :: ", ".data
    ++ squote :: 'b' :: squote :: "]".data)

/-- C8 (amended): `initval("[5, 'a', 'b']")` sets `simtime` to 5 and returns
`['a', 'b']`.  Input that fails to parse, or parses to a non-list or an
empty list, yields an empty sequence with an error logged and `simtime`
unchanged.  But input parsing to a non-empty list whose first element is
non-numeric yields the *tail* of that list (empty only for a singleton),
with an error logged and `simtime` unchanged. -/
theorem claim_C8_initval :
    (∀ st, initval st strFiveAB
        = (.vlist [.vstr "a", .vstr "b"], { st with simtime := 5 }, [])) ∧
    (∀ st text, literalEval text = none →
        initval st text = (.vlist [], st, [.parseError])) ∧
    (∀ st text v, literalEval text = some v → isNonEmptyList v = false →
        initval st text = (.vlist [], st, [.notAList])) ∧
    (∀ st text h t, literalEval text = some (.vlist (h :: t)) → numOf h = none →
        initval st text = (.vlist t, st, [.badFirstElement])) := by
  refine ⟨?_, ?_, ?_, ?_⟩
  · intro st
    have he : literalEval strFiveAB
        = some (.vlist (.vint 5 :: [.vstr "a", .vstr "b"])) := rfl
    simp [initval, he, numOf]
  · intro st text h
    simp [initval, h]
  · intro st text v hev hshape
    cases v with
    | vlist xs =>
        cases xs with
        | nil => simp [initval, hev]
        | cons h t => exact absurd hshape (by simp [isNonEmptyList])
    | vint k => simp [initval, hev]
    | vbool b => simp [initval, hev]
    | vnone => simp [initval, hev]
    | vstr s => simp [initval, hev]
    | vtuple xs => simp [initval, hev]
    | vdict ps => simp [initval, hev]
    | vnp k => simp [initval, hev]
  · intro st text h t hev hnum
    simp [initval, hev, hnum]

/-- C8 counterexample: `initval("['a', 'b']")` — "malformed" per the claim
(non-numeric first element) — returns `['b']`, not an empty sequence. -/
theorem claim_C8_cx :
    initval st0 strAB = (.vlist [.vstr "b"], st0, [.badFirstElement]) ∧
    (Val.vlist [.vstr "b"] = Val.vlist []) = False := by
  refine ⟨rfl, by simp⟩

/-- Witness: C8 on the spec's example and on malformed inputs. -/
theorem claim_C8_initval_witness :
    initval st0 strFiveAB = (.vlist [.vstr "a", .vstr "b"], ⟨5, "", "", 0⟩, []) ∧
    initval st0 "not-a-list" = (.vlist [], st0, [.parseError]) ∧
    initval st0 "7" = (.vlist [], st0, [.notAList]) := by
  refine ⟨?_, ?_, ?_⟩
  · exact claim_C8_initval.1 st0
  · exact claim_C8_initval.2.1 st0 "not-a-list" rfl
  · exact claim_C8_initval.2.2.1 st0 "7" (.vint 7) rfl rfl

/-- The payload envelope a file-port list write produces:
`[time+delta, *normalized items]`. -/
def envelope (t : Int) (xs : List Val) : Val := .vlist (.vint t :: convList xs)

/-- The file content of the envelope (its Python `str`). -/
def envelopeStr (t : Int) (xs : List Val) : String := String.mk (prL (envelope t xs))

theorem envelopeStr_ne_empty (t : Int) (xs : List Val) : envelopeStr t xs ≠ "" := by
  intro h
  have h2 := congrArg String.data h
  simp [envelopeStr, envelope, prL] at h2

theorem literalEval_envelopeStr (t : Int) (xs : List Val)
    (h : wfLB (convList xs) = true) :
    literalEval (envelopeStr t xs) = some (envelope t xs) := by
  have hwf : wfB (envelope t xs) = true := by
    simp [envelope, wfB, wfLB, h]
  exact literalEval_prL (envelope t xs) hwf

/-- C2: the write/read round trip.  A file-port list write with delta `d`
from time `t` writes exactly the envelope `[t+d, *normalized(v)]` and
advances the writer to `t+d`; a read of that same file content returns the
normalized payload with the envelope stripped and leaves the reader's
logical time at `max(reader_time, t+d) ≥ t+d`.  (Well-formedness restricts
payloads to the literal fragment the codec round-trips exactly: ints,
bools, `None`, quote-free strings, numpy ints, and nested lists.) -/
theorem claim_C2_roundtrip (envw : WriteEnv) (envr : ReadEnv) (stw stR : St)
    (xs : List Val) (d : Int) (p q i : Val) (nm : String) (k : Int)
    (hzw : isZmqName envw.zmqPorts p = false)
    (hpw : pyInt p = .ok k)
    (hwfail : envw.writeFails = false)
    (hvwf : wfLB (convList xs) = true)
    (hzr : isZmqName envr.zmqPorts q = false)
    (hpr : pyInt q = .ok k)
    (hfr : envr.file 0 = .content (envelopeStr (stw.simtime + d) xs)) :
    write envw stw p nm (.vlist xs) d
        = .ok ⟨none, some (outPathStr k nm, envelopeStr (stw.simtime + d) xs),
            { stw with simtime := stw.simtime + d }, [], []⟩ ∧
    read envr stR q i
        = .ok ⟨.vlist (convList xs),
            ⟨max stR.simtime (stw.simtime + d),
              stR.s ++ envelopeStr (stw.simtime + d) xs, stR.olds, stR.retrycount⟩,
            0, [envr.delay], []⟩ ∧
    stw.simtime + d ≤ max stR.simtime (stw.simtime + d) := by
  have hne := envelopeStr_ne_empty (stw.simtime + d) xs
  have hev := literalEval_envelopeStr (stw.simtime + d) xs hvwf
  refine ⟨?_, ?_, le_max_right _ _⟩
  · simp [write, hzw, hpw, hwfail, envelopeStr, envelope]
  · unfold read readFile readParse
    simp [hzr, hpr, hfr, hne, retryLoop_nonempty envr 5 _ 0 hne, hev,
      envelope, numOf, List.replicate]

def c2xs : List Val := [.vnp 3, .vstr "ab", .vlist [.vint 4], .vbool true, .vnone]

def c2stw : St := ⟨5, "", "", 0⟩

def c2env : ReadEnv := fileContentEnv (envelopeStr 7 c2xs)

/-- Witness: C2 at a concrete payload mixing a numpy scalar, a string, a
nested list, a bool and `None`, written with `delta = 2` from time 5. -/
theorem claim_C2_roundtrip_witness :
    write plainWriteEnv c2stw (.vint 1) "x" (.vlist c2xs) 2
        = .ok ⟨none, some ("./out1/x", envelopeStr 7 c2xs), ⟨7, "", "", 0⟩, [], []⟩ ∧
    read c2env st0 (.vint 1) (.vint 0)
        = .ok ⟨.vlist [.vint 3, .vstr "ab", .vlist [.vint 4], .vbool true, .vnone],
            ⟨7, envelopeStr 7 c2xs, "", 0⟩, 0, [1], []⟩ ∧
    (7 : Int) ≤ 7 := by
  have h := claim_C2_roundtrip plainWriteEnv c2env c2stw st0 c2xs 2 (.vint 1) (.vint 1)
    (.vint 0) "x" 1 rfl rfl rfl rfl rfl rfl rfl
  refine ⟨h.1.trans (by rfl), h.2.1.trans (by rfl), by decide⟩

end Concore
